import Mathlib

/-!
Shallow embedding of `twisted/words/service.py`.

The service keeps a directory of participants and groups, each keyed by its
name.  In the source, `contacts`, `reverseContacts`, `groups` and `members`
hold object references; every such object is created and stored by the
directory under its (immutable) name, and the source compares references
either by identity or by their `name` attribute, so references are modelled
here as names.  Python dictionaries become functions `String → Option _`.

A method call is modelled as a function returning an `Eff`: the state after
all mutations performed before control left the method, the ordered list of
pushes delivered to attached clients, and the exception the method raised
(if any).  Client handles are modelled by the capabilities the source
branches on: whether the handle is a `styles.Ephemeral` placeholder, whether
the push of a message with metadata signals a capability failure, and
whether the client returns a Deferred (the in-process IRC client returns
`None`, so no errback can ever fire for it).
-/

namespace WordsService

inductive Status
  | offline
  | online
  | away
deriving DecidableEq, Repr

structure Client where
  ephemeral : Bool
  supportsMetadata : Bool
  returnsDeferred : Bool
deriving DecidableEq, Repr

abbrev Metadata := List (String × String)

structure Participant where
  name : String
  status : Status
  contacts : List String
  reverseContacts : List String
  groups : List String
  client : Option Client
  info : String
deriving DecidableEq, Repr

structure Group where
  name : String
  members : List String
  metadata : Metadata
deriving DecidableEq, Repr

structure Service where
  participants : String → Option Participant
  groups : String → Option Group

/-- Errors raised by the source, plus the Python-level errors its unguarded
attribute accesses can raise.  `nameError` marks the model artifact of a
name that does not resolve in the directory; in the source the corresponding
object reference is held directly, and no claim is settled on a `nameError`
path. -/
inductive Err
  | notInCollection (msg : String)
  | notInGroup (group : String) (pName : Option String)
  | userNonexistant (name : String)
  | wrongStatus (st : Status) (pName : Option String)
  | unauthorized (msg : String)
  | attributeError
  | valueError
  | nameError
deriving DecidableEq, Repr

/-- One push delivered to the attached client of participant `who`
(the methods of `WordsClientInterface`). -/
inductive Event
  | receiveContactList (who : String) (pairs : List (String × Status))
  | notifyStatusChanged (who contact : String) (st : Status)
  | receiveGroupMembers (who : String) (names : List String) (group : String)
  | directMsg (who sender message : String) (metadata : Option Metadata)
  | groupMsg (who sender group message : String) (metadata : Option Metadata)
  | memberJoined (who member group : String)
  | memberLeft (who member group : String)
  | setGroupMetadata (who : String) (m : Metadata) (group : String)
deriving DecidableEq, Repr

/-- Result of one method call: state after the mutations that happened
before the method returned or raised, pushes emitted in order, and the
exception raised (`none` = normal return). -/
structure Eff where
  state : Service
  events : List Event
  err : Option Err

def setP (s : Service) (n : String) (p : Participant) : Service :=
  { s with participants := fun m => if m = n then some p else s.participants m }

def setG (s : Service) (n : String) (g : Group) : Service :=
  { s with groups := fun m => if m = n then some g else s.groups m }

def emptyService : Service := ⟨fun _ => none, fun _ => none⟩

/-- `Participant.__init__`. -/
def newParticipant (name : String) : Participant :=
  ⟨name, .offline, [], [], [], none, ""⟩

/-- `Group.__init__`. -/
def newGroup (name : String) : Group :=
  ⟨name, [], [("topic", "Welcome to " ++ name ++ "!"), ("topic_author", "admin")]⟩

/-- `Service.createParticipant`: creates only when the name is free; an
existing name is a silent no-op returning nothing. -/
def createParticipant (s : Service) (name : String) : Service × Option String :=
  match s.participants name with
  | some _ => (s, none)
  | none => (setP s name (newParticipant name), some name)

/-- `Service.getGroup`: get-or-create.  The source tests `if not group:`;
a `Group` instance defines no truthiness hooks, so this is exactly a
presence test on the dictionary. -/
def getGroup (s : Service) (name : String) : Service × Group :=
  match s.groups name with
  | some g => (s, g)
  | none =>
    let g := newGroup name
    (setG s name g, g)

/-- `Service.getPerspectiveNamed`. -/
def getPerspectiveNamed (s : Service) (name : String) : Except Err Participant :=
  match s.participants name with
  | some p => .ok p
  | none => .error (.userNonexistant name)

/-- Fresh directory populated by `createParticipant` for each name. -/
def initService (names : List String) : Service :=
  names.foldl (fun s n => (createParticipant s n).1) emptyService

/-- `Participant.notifyStatusChanged` on watcher `rn`, observing `contact`
whose current name/status are passed: push only when a client is attached. -/
def notifyStatusChangedEv (s : Service) (rn contactName : String) (st : Status) : List Event :=
  match s.participants rn with
  | some q =>
    match q.client with
    | some _ => [.notifyStatusChanged rn contactName st]
    | none => []
  | none => []

/-- `Participant.changeStatus`: set the status, then fan out
`notifyStatusChanged` to every reverse contact (each push guarded on the
watcher having a client). -/
def changeStatus (s : Service) (pn : String) (st : Status) : Eff :=
  match s.participants pn with
  | none => ⟨s, [], some .nameError⟩
  | some p =>
    let s1 := setP s pn { p with status := st }
    ⟨s1, p.reverseContacts.foldr (fun rn evs => notifyStatusChangedEv s1 rn pn st ++ evs) [], none⟩

/-- Contact list pushed on attach: `(contact.name, contact.status)` for each
entry of `contacts`, read at push time.  Unresolvable names cannot occur in
reachable states and are skipped. -/
def contactPairs (s : Service) : List String → List (String × Status)
  | [] => []
  | cn :: rest =>
    match s.participants cn with
    | some c => (c.name, c.status) :: contactPairs s rest
    | none => contactPairs s rest

/-- Tail of `Participant.attached` after the duplicate-login guard passed:
store the handle, push the contact list, go ONLINE, return self (modelled as
the directory key of the participant). -/
def attachProceed (s : Service) (pn : String) (p : Participant) (cl : Client) : Eff × Option String :=
  let s1 := setP s pn { p with client := some cl }
  let ev := Event.receiveContactList pn (contactPairs s1 p.contacts)
  let e2 := changeStatus s1 pn .online
  (⟨e2.state, ev :: e2.events, e2.err⟩, some pn)

/-- `Participant.attached`: raise `Unauthorized` when a non-Ephemeral client
is already attached, otherwise proceed. -/
def attached (s : Service) (pn : String) (cl : Client) : Eff × Option String :=
  match s.participants pn with
  | none => (⟨s, [], some .nameError⟩, none)
  | some p =>
    match p.client with
    | some c =>
      if c.ephemeral then attachProceed s pn p cl
      else (⟨s, [], some (.unauthorized "duplicate login not permitted.")⟩, none)
    | none => attachProceed s pn p cl

/-- `Participant.addContact`: resolve the contact through the directory,
append to `contacts`, append self to the reverse side, then the guarded
self-notification.  The guard and the pushed name/status read fields that
the two list appends do not touch, so they are read from the pre-call
objects. -/
def addContact (s : Service) (pn cn : String) : Eff :=
  match s.participants pn with
  | none => ⟨s, [], some .nameError⟩
  | some p =>
    match s.participants cn with
    | none => ⟨s, [], some (.userNonexistant cn)⟩
    | some c0 =>
      let s1 := setP s pn { p with contacts := p.contacts ++ [cn] }
      match s1.participants cn with
      | none => ⟨s1, [], some .nameError⟩
      | some c1 =>
        let s2 := setP s1 cn { c1 with reverseContacts := c1.reverseContacts ++ [pn] }
        let evs : List Event :=
          match p.client with
          | some _ => [.notifyStatusChanged pn c0.name c0.status]
          | none => []
        ⟨s2, evs, none⟩

/-- `Participant.removeContact`: linear scan of `contacts` by name; on a hit
remove the first occurrence on both sides (`list.remove` raises `ValueError`
when the reverse side lacks the entry, after the forward side was already
mutated); on a miss raise `NotInCollectionError`. -/
def removeContact (s : Service) (pn cn : String) : Eff :=
  match s.participants pn with
  | none => ⟨s, [], some .nameError⟩
  | some p =>
    if cn ∈ p.contacts then
      let s1 := setP s pn { p with contacts := p.contacts.erase cn }
      match s1.participants cn with
      | none => ⟨s1, [], some .nameError⟩
      | some c1 =>
        if pn ∈ c1.reverseContacts then
          ⟨setP s1 cn { c1 with reverseContacts := c1.reverseContacts.erase pn }, [], none⟩
        else ⟨s1, [], some .valueError⟩
    else ⟨s, [], some (.notInCollection ("No such contact '" ++ cn ++ "'."))⟩

/-- Per-member notification loop of `Group.addMember` / `Group.removeMember`
(`Participant.memberJoined` / `memberLeft`): `self.client.memberJoined(...)`
dereferences the client of the notified member without a guard, so a member
whose client is `None` aborts the loop with an `AttributeError`; the pushes
to the members before it have already gone out. -/
def notifyMembers (s : Service) (mk : String → Event) : List String → List Event × Option Err
  | [] => ([], none)
  | m :: rest =>
    match s.participants m with
    | none => ([], some .nameError)
    | some pm =>
      match pm.client with
      | none => ([], some .attributeError)
      | some _ =>
        let r := notifyMembers s mk rest
        (mk m :: r.1, r.2)

/-- `Group.addMember`: no-op when already a member; otherwise notify every
existing member of the join, push the group metadata to the joiner (guarded
on its client), then append the joiner to `members`.  Keyed by the group
name `gn`; in every reachable state the stored name of the group and of
each participant equals its directory key. -/
def addMember (s : Service) (gn pn : String) : Eff :=
  match s.groups gn with
  | none => ⟨s, [], some .nameError⟩
  | some g =>
    if pn ∈ g.members then ⟨s, [], none⟩
    else
      let r := notifyMembers s (fun m => .memberJoined m pn gn) g.members
      match r.2 with
      | some e => ⟨s, r.1, some e⟩
      | none =>
        let evs2 : List Event :=
          match s.participants pn with
          | some p =>
            match p.client with
            | some _ => [.setGroupMetadata pn g.metadata gn]
            | none => []
          | none => []
        ⟨setG s gn { g with members := g.members ++ [pn] }, r.1 ++ evs2, none⟩

/-- `Group.removeMember`: remove the first occurrence of the participant
from `members` (raising `NotInGroupError(groupName, participantName)` when
absent), then notify every remaining member of the departure. -/
def removeMember (s : Service) (gn pn : String) : Eff :=
  match s.groups gn with
  | none => ⟨s, [], some .nameError⟩
  | some g =>
    if pn ∈ g.members then
      let s1 := setG s gn { g with members := g.members.erase pn }
      let r := notifyMembers s1 (fun m => .memberLeft m pn gn) (g.members.erase pn)
      ⟨s1, r.1, r.2⟩
    else ⟨s, [], some (.notInGroup gn (some pn))⟩

/-- `Participant.joinGroup`: resolve or create the group, silently return
when already a member, otherwise `addMember` then append to `groups`. -/
def joinGroup (s : Service) (pn gn : String) : Eff :=
  match s.participants pn with
  | none => ⟨s, [], some .nameError⟩
  | some p =>
    let s1 := (getGroup s gn).1
    if gn ∈ p.groups then ⟨s1, [], none⟩
    else
      let e := addMember s1 gn pn
      match e.err with
      | some er => ⟨e.state, e.events, some er⟩
      | none =>
        match e.state.participants pn with
        | none => ⟨e.state, e.events, some .nameError⟩
        | some p2 => ⟨setP e.state pn { p2 with groups := p2.groups ++ [gn] }, e.events, none⟩

/-- `Participant.leaveGroup`: scan `groups` by name; on a hit remove it from
`groups` first, then `removeMember` on the group (whose exceptions
propagate); on a miss raise `NotInGroupError(name)`. -/
def leaveGroup (s : Service) (pn gn : String) : Eff :=
  match s.participants pn with
  | none => ⟨s, [], some .nameError⟩
  | some p =>
    if gn ∈ p.groups then
      let s1 := setP s pn { p with groups := p.groups.erase gn }
      removeMember s1 gn pn
    else ⟨s, [], some (.notInGroup gn none)⟩

/-- The `except NotInGroupError: pass` of `Participant.detached` catches
exactly `NotInGroupError`; anything else aborts the cleanup loop. -/
def loopContinues : Option Err → Bool
  | none => true
  | some (.notInGroup _ _) => true
  | some _ => false

/-- Cleanup loop of `Participant.detached`: iterate over a copy of the
group list taken at entry, leaving each group, suppressing
`NotInGroupError` and propagating any other exception. -/
def detachLoop (s : Service) (pn : String) : List String → Eff
  | [] => ⟨s, [], none⟩
  | gn :: rest =>
    let e := leaveGroup s pn gn
    if loopContinues e.err then
      let e2 := detachLoop e.state pn rest
      ⟨e2.state, e.events ++ e2.events, e2.err⟩
    else ⟨e.state, e.events, e.err⟩

/-- `Participant.detached`: clear the client, run the cleanup loop over a
copy of `groups`, then go OFFLINE (reached only when the loop did not
propagate an exception). -/
def detached (s : Service) (pn : String) : Eff :=
  match s.participants pn with
  | none => ⟨s, [], some .nameError⟩
  | some p =>
    let s1 := setP s pn { p with client := none }
    let e := detachLoop s1 pn p.groups
    match e.err with
    | none =>
      let e2 := changeStatus e.state pn .offline
      ⟨e2.state, e.events ++ e2.events, e2.err⟩
    | some er => ⟨e.state, e.events, some er⟩

/-- Body of the scan loop in `Participant.getGroupMembers`: for every entry
of `groups` whose name matches, push the member-name list through the
client handle — an unguarded access that raises `AttributeError` when no
client is attached; after the whole scan the method always raises
`NotInGroupError(groupName)`. -/
def ggmLoop (s : Service) (pn gn : String) (cl : Option Client) : List String → List Event × Option Err
  | [] => ([], some (.notInGroup gn none))
  | g0 :: rest =>
    if g0 = gn then
      match cl with
      | none => ([], some .attributeError)
      | some _ =>
        match s.groups g0 with
        | none => ([], some .nameError)
        | some g =>
          let r := ggmLoop s pn gn cl rest
          (.receiveGroupMembers pn g.members gn :: r.1, r.2)
    else ggmLoop s pn gn cl rest

/-- `Participant.getGroupMembers`. -/
def getGroupMembers (s : Service) (pn gn : String) : Eff :=
  match s.participants pn with
  | none => ⟨s, [], some .nameError⟩
  | some p =>
    let r := ggmLoop s pn gn p.client p.groups
    ⟨s, r.1, r.2⟩

/-- A value occupying the `sender` slot of a message method: a participant
reference (whose `.name` resolves) or, after the buggy errback registration
of `receiveDirectMessage`, a plain string (whose `.name` raises
`AttributeError`). -/
inductive PyRef
  | ref (name : String)
  | str (s : String)
deriving DecidableEq, Repr

def PyRef.getName : PyRef → Except Err String
  | .ref n => .ok n
  | .str _ => .error .attributeError

/-- The `else` branch of `Participant.receiveDirectMessage`
(`metadata` empty): one push without metadata.  The capability-failure
errback re-enters `receiveDirectMessage` with `metadata = None`, which is
exactly this branch, re-checking `self.client` at the (asynchronous) time
the retry runs. -/
def receiveDirectMessageNoMeta (s : Service) (pn : String) (sender : PyRef) (message : String) : Eff :=
  match s.participants pn with
  | none => ⟨s, [], some .nameError⟩
  | some p =>
    match p.client with
    | none => ⟨s, [], some (.wrongStatus p.status (some p.name))⟩
    | some _ =>
      match sender.getName with
      | .error e => ⟨s, [], some e⟩
      | .ok sn => ⟨s, [.directMsg pn sn message none], none⟩

/-- `Participant.receiveDirectMessage`.  With no client: raise
`WrongStatusError(status, name)`.  With non-empty metadata: push with
metadata; when the client returns a Deferred and signals a capability
failure, the errback registered as
`d.addErrback(self.receiveDirectMessage, sender.name, message, None)` runs
— note it passes `sender.name` (a string), not `sender`, in the sender
slot.  Modelled from the spec: `Deferred.addErrback` lives in the transport
layer outside `src/`; the spec describes the retry as a continuation of the
failed push, so the continuation is modelled as invoking the registered
callable on the registered arguments (the real Twisted Deferred also
prepends the failure itself as an extra first argument, which would make
the re-invocation fail even earlier, with a `TypeError` arity mismatch). -/
def receiveDirectMessage (s : Service) (pn : String) (sender : PyRef) (message : String) (metadata : Metadata) : Eff :=
  match s.participants pn with
  | none => ⟨s, [], some .nameError⟩
  | some p =>
    match p.client with
    | none => ⟨s, [], some (.wrongStatus p.status (some p.name))⟩
    | some c =>
      match metadata with
      | [] =>
        match sender.getName with
        | .error e => ⟨s, [], some e⟩
        | .ok sn => ⟨s, [.directMsg pn sn message none], none⟩
      | _ :: _ =>
        match sender.getName with
        | .error e => ⟨s, [], some e⟩
        | .ok sn =>
          let ev := Event.directMsg pn sn message (some metadata)
          if c.returnsDeferred && !c.supportsMetadata then
            let e2 := receiveDirectMessageNoMeta s pn (.str sn) message
            ⟨e2.state, ev :: e2.events, e2.err⟩
          else ⟨s, [ev], none⟩

/-- The no-metadata branch of `Participant.receiveGroupMessage`; the
capability-failure errback re-enters the method with `metadata = None`. -/
def receiveGroupMessageNoMeta (s : Service) (pn : String) (sender : PyRef) (gname message : String) : Eff :=
  match s.participants pn with
  | none => ⟨s, [], some .nameError⟩
  | some p =>
    if sender = .ref pn then ⟨s, [], none⟩
    else
      match p.client with
      | none => ⟨s, [], none⟩
      | some _ =>
        match sender.getName with
        | .error e => ⟨s, [], some e⟩
        | .ok sn => ⟨s, [.groupMsg pn sn gname message none], none⟩

/-- `Participant.receiveGroupMessage`: delivers only when the sender is not
the recipient itself and a client is attached (otherwise a silent no-op).
The errback is registered as
`d.addErrback(self.receiveGroupMessage, sender, group, message, None)`, so
the retry carries the original sender reference and group.  Modelled from
the spec: the Deferred continuation is invoked on the registered arguments,
as for `receiveDirectMessage`. -/
def receiveGroupMessage (s : Service) (pn : String) (sender : PyRef) (gname message : String) (metadata : Metadata) : Eff :=
  match s.participants pn with
  | none => ⟨s, [], some .nameError⟩
  | some p =>
    if sender = .ref pn then ⟨s, [], none⟩
    else
      match p.client with
      | none => ⟨s, [], none⟩
      | some c =>
        match metadata with
        | [] =>
          match sender.getName with
          | .error e => ⟨s, [], some e⟩
          | .ok sn => ⟨s, [.groupMsg pn sn gname message none], none⟩
        | _ :: _ =>
          match sender.getName with
          | .error e => ⟨s, [], some e⟩
          | .ok sn =>
            let ev := Event.groupMsg pn sn gname message (some metadata)
            if c.returnsDeferred && !c.supportsMetadata then
              let e2 := receiveGroupMessageNoMeta s pn sender gname message
              ⟨e2.state, ev :: e2.events, e2.err⟩
            else ⟨s, [ev], none⟩

/-! ### Basic lemmas about the directory maps -/

theorem setP_lookup (s : Service) (n xn : String) (p : Participant) :
    (setP s n p).participants xn = if xn = n then some p else s.participants xn := rfl

theorem setP_self (s : Service) (n : String) (p : Participant) :
    (setP s n p).participants n = some p := by
  simp [setP]

theorem setP_ne (s : Service) {n m : String} (p : Participant) (h : m ≠ n) :
    (setP s n p).participants m = s.participants m := by
  simp [setP, h]

theorem setP_groups (s : Service) (n : String) (p : Participant) :
    (setP s n p).groups = s.groups := rfl

theorem setG_lookup (s : Service) (n xn : String) (g : Group) :
    (setG s n g).groups xn = if xn = n then some g else s.groups xn := rfl

theorem setG_self (s : Service) (n : String) (g : Group) :
    (setG s n g).groups n = some g := by
  simp [setG]

theorem setG_ne (s : Service) {n m : String} (g : Group) (h : m ≠ n) :
    (setG s n g).groups m = s.groups m := by
  simp [setG, h]

theorem setG_participants (s : Service) (n : String) (g : Group) :
    (setG s n g).participants = s.participants := rfl

theorem getGroup_participants (s : Service) (n : String) :
    (getGroup s n).1.participants = s.participants := by
  unfold getGroup
  cases s.groups n <;> rfl

theorem getGroup_lookup_self (s : Service) (n : String) :
    (getGroup s n).1.groups n = some (getGroup s n).2 := by
  unfold getGroup
  cases h : s.groups n
  · simpa using setG_self s n (newGroup n)
  · simpa using h

theorem getGroup_of_some (s : Service) (n : String) (g : Group)
    (h : s.groups n = some g) : getGroup s n = (s, g) := by
  rw [getGroup, h]

/-! ### C9: getGroup has get-or-create semantics -/

/-- C9: the first `getGroup` call for a free name creates a group whose
metadata is exactly the seeded topic/author map and stores it in the
directory, and any call made on a state already holding the name returns
the stored group unchanged — in particular a second call returns exactly
what the first call returned, creating nothing new. -/
theorem getGroup_get_or_create (s : Service) (n : String) (h : s.groups n = none) :
    ((getGroup s n).2.name = n
      ∧ (getGroup s n).2.members = []
      ∧ (getGroup s n).2.metadata
          = [("topic", "Welcome to " ++ n ++ "!"), ("topic_author", "admin")]
      ∧ (getGroup s n).1.groups n = some (getGroup s n).2)
    ∧ ∀ s2 : Service, getGroup (getGroup s2 n).1 n = ((getGroup s2 n).1, (getGroup s2 n).2) := by
  constructor
  · refine ⟨?_, ?_, ?_, getGroup_lookup_self s n⟩ <;> simp [getGroup, h, newGroup]
  · intro s2
    have hh := getGroup_lookup_self s2 n
    rw [getGroup, hh]

theorem getGroup_get_or_create_witness :
    emptyService.groups "lobby" = none
    ∧ ((getGroup emptyService "lobby").2.name = "lobby"
      ∧ (getGroup emptyService "lobby").2.members = []
      ∧ (getGroup emptyService "lobby").2.metadata
          = [("topic", "Welcome to " ++ "lobby" ++ "!"), ("topic_author", "admin")]
      ∧ (getGroup emptyService "lobby").1.groups "lobby" = some (getGroup emptyService "lobby").2) :=
  ⟨rfl, (getGroup_get_or_create emptyService "lobby" rfl).1⟩

/-! ### C1: the metadata-capability fallback -/

def metaEmote : Metadata := [("style", "emote")]

/-- A live non-placeholder client handle that rejects metadata and returns a
Deferred, so the capability-fallback errback fires. -/
def clientNoMetaDeferred : Client := ⟨false, false, true⟩

/-- State with participants a and b, where b is attached through
`clientNoMetaDeferred`. -/
def sDirectRetry : Service :=
  ((attached (initService ["a", "b"]) "b" clientNoMetaDeferred).1).state

/-- C1: evaluation at the failing input.  Delivering a direct message with
non-empty metadata to a client that signals a capability failure does NOT
produce a clean follow-up delivery: the errback was registered with
`sender.name` (a string) in the sender slot, so the retry dies with an
`AttributeError` on `sender.name` and the only push that ever reaches the
client is the original with-metadata attempt.  (The group-message path,
whose errback was registered with the sender reference itself, does retry
correctly.) -/
theorem receiveDirectMessage_retry_crashes :
    (receiveDirectMessage sDirectRetry "b" (.ref "a") "hi" metaEmote).events
        = [.directMsg "b" "a" "hi" (some metaEmote)]
    ∧ (receiveDirectMessage sDirectRetry "b" (.ref "a") "hi" metaEmote).err
        = some .attributeError
    ∧ (receiveGroupMessage sDirectRetry "b" (.ref "a") "g" "hi" metaEmote).events
        = [.groupMsg "b" "a" "g" "hi" (some metaEmote), .groupMsg "b" "a" "g" "hi" none]
    ∧ (receiveGroupMessage sDirectRetry "b" (.ref "a") "g" "hi" metaEmote).err = none := by
  decide

/-! ### C7: missing-client asymmetry of the two delivery methods -/

/-- C7: with no attached client, `receiveDirectMessage` raises
`WrongStatusError(status, name)` while `receiveGroupMessage` is a silent
no-op; and `receiveGroupMessage` delivers nothing when the recipient is the
sender itself, whatever the client. -/
theorem message_no_client_asymmetry (s : Service) (pn gname message : String)
    (p : Participant) (sender : PyRef) (metadata : Metadata)
    (h : s.participants pn = some p) :
    (p.client = none →
      receiveDirectMessage s pn sender message metadata
        = ⟨s, [], some (.wrongStatus p.status (some p.name))⟩)
    ∧ (p.client = none →
      receiveGroupMessage s pn sender gname message metadata = ⟨s, [], none⟩)
    ∧ receiveGroupMessage s pn (.ref pn) gname message metadata = ⟨s, [], none⟩ := by
  refine ⟨fun hc => ?_, fun hc => ?_, ?_⟩
  · simp [receiveDirectMessage, h, hc]
  · by_cases hs : sender = .ref pn
    · simp [receiveGroupMessage, h, hs]
    · simp [receiveGroupMessage, h, hs, hc]
  · simp [receiveGroupMessage, h]

theorem message_no_client_asymmetry_witness :
    (initService ["a"]).participants "a" = some (newParticipant "a")
    ∧ (newParticipant "a").client = none
    ∧ receiveDirectMessage (initService ["a"]) "a" (.ref "b") "hi" []
        = ⟨initService ["a"], [], some (.wrongStatus .offline (some "a"))⟩ :=
  ⟨by decide, rfl,
    (message_no_client_asymmetry (initService ["a"]) "a" "g" "hi" (newParticipant "a")
      (.ref "b") [] (by decide)).1 rfl⟩

/-! ### C4: the duplicate-login guard of attach -/

theorem contactPairs_setP_client (s : Service) (pn : String) (p : Participant)
    (cl : Option Client) (h : s.participants pn = some p) :
    ∀ l : List String, contactPairs (setP s pn { p with client := cl }) l = contactPairs s l := by
  intro l
  induction l with
  | nil => rfl
  | cons cn rest ih =>
    by_cases hc : cn = pn
    · subst hc
      rw [contactPairs, contactPairs, setP_self, h, ih]
    · rw [contactPairs, contactPairs, setP_ne _ _ hc, ih]

theorem attachProceed_spec (s : Service) (pn : String) (p : Participant) (cl : Client)
    (h : s.participants pn = some p) :
    ((attachProceed s pn p cl).1).err = none
    ∧ ((attachProceed s pn p cl).1).state.participants pn
        = some { p with client := some cl, status := .online }
    ∧ ((attachProceed s pn p cl).1).events.head?
        = some (.receiveContactList pn (contactPairs s p.contacts))
    ∧ (attachProceed s pn p cl).2 = some pn := by
  have hs1 : (setP s pn { p with client := some cl }).participants pn
      = some { p with client := some cl } := setP_self s pn _
  refine ⟨?_, ?_, ?_, rfl⟩
  · simp [attachProceed, changeStatus, hs1]
  · simp [attachProceed, changeStatus, hs1, setP_self]
  · simp [attachProceed, contactPairs_setP_client s pn p (some cl) h]

/-- C4: `attached` raises `Unauthorized("duplicate login not permitted.")`
exactly when a non-placeholder (non-Ephemeral) client is already attached;
otherwise it stores the handle, first pushes the current contact list as
(name, status) pairs, ends with status ONLINE, and returns the participant
itself (modelled as its directory key). -/
theorem attached_guard (s : Service) (pn : String) (cl : Client) (p : Participant)
    (h : s.participants pn = some p) :
    (((attached s pn cl).1).err = some (.unauthorized "duplicate login not permitted.")
        ↔ ∃ c, p.client = some c ∧ c.ephemeral = false)
    ∧ ((∀ c, p.client = some c → c.ephemeral = true) →
        ((attached s pn cl).1).err = none
        ∧ ((attached s pn cl).1).state.participants pn
            = some { p with client := some cl, status := .online }
        ∧ ((attached s pn cl).1).events.head?
            = some (.receiveContactList pn (contactPairs s p.contacts))
        ∧ (attached s pn cl).2 = some pn) := by
  have hps := attachProceed_spec s pn p cl h
  cases hc : p.client with
  | none =>
    have hred : attached s pn cl = attachProceed s pn p cl := by
      simp only [attached, h, hc]
    constructor
    · rw [hred, hps.1]
      simp
    · intro _
      rw [hred]
      exact hps
  | some c =>
    cases hce : c.ephemeral with
    | true =>
      have hred : attached s pn cl = attachProceed s pn p cl := by
        simp only [attached, h, hc, hce, if_true]
      constructor
      · rw [hred, hps.1]
        simp [hce]
      · intro _
        rw [hred]
        exact hps
    | false =>
      have hred : attached s pn cl
          = (⟨s, [], some (.unauthorized "duplicate login not permitted.")⟩, none) := by
        simp only [attached, h, hc, hce]
        simp
      constructor
      · rw [hred]
        exact ⟨fun _ => ⟨c, rfl, hce⟩, fun _ => rfl⟩
      · intro hall
        have hctr := hall c rfl
        rw [hce] at hctr
        cases hctr

def liveClient : Client := ⟨false, true, true⟩

theorem attached_guard_witness :
    (initService ["a"]).participants "a" = some (newParticipant "a")
    ∧ (((attached (initService ["a"]) "a" liveClient).1).err = none
      ∧ ((attached (initService ["a"]) "a" liveClient).1).state.participants "a"
          = some { newParticipant "a" with client := some liveClient, status := .online }
      ∧ ((attached (initService ["a"]) "a" liveClient).1).events.head?
          = some (.receiveContactList "a" (contactPairs (initService ["a"]) (newParticipant "a").contacts))
      ∧ (attached (initService ["a"]) "a" liveClient).2 = some "a") :=
  ⟨by decide,
    (attached_guard (initService ["a"]) "a" liveClient (newParticipant "a") (by decide)).2
      (fun c hc => by cases hc)⟩

/-! ### C6: getGroupMembers pushes, then always falls through to raise -/

theorem ggmLoop_not_mem (s : Service) (pn gn : String) (cl : Option Client) :
    ∀ l : List String, gn ∉ l →
      ggmLoop s pn gn cl l = ([], some (.notInGroup gn none)) := by
  intro l
  induction l with
  | nil => intro _; rfl
  | cons g0 rest ih =>
    intro h
    have h0 : ¬(g0 = gn) := fun he => h (by simp [he])
    simp only [ggmLoop, if_neg h0]
    exact ih (fun hm => h (by simp [hm]))

theorem ggmLoop_skip (s : Service) (pn gn : String) (cl : Option Client) :
    ∀ l1 l2 : List String, gn ∉ l1 →
      ggmLoop s pn gn cl (l1 ++ l2) = ggmLoop s pn gn cl l2 := by
  intro l1
  induction l1 with
  | nil => intro l2 _; rfl
  | cons g0 rest ih =>
    intro l2 h
    have h0 : ¬(g0 = gn) := fun he => h (by simp [he])
    rw [List.cons_append]
    simp only [ggmLoop, if_neg h0]
    exact ih l2 (fun hm => h (by simp [hm]))

/-- C6 as amended: `getGroupMembers` raises `NotInGroupError(groupName)` on
every call on which the unguarded client dereference does not itself blow
up first.  With no matching membership it raises without pushing; with one
matching membership and an attached client it pushes the member-name list
and then still raises `NotInGroupError`.  (The unamended claim fails when a
membership matches and no client is attached: the method then dies with an
`AttributeError` instead — see the counterexample.) -/
theorem getGroupMembers_always_raises (s : Service) (pn gn : String) (p : Participant)
    (h : s.participants pn = some p) :
    (gn ∉ p.groups → getGroupMembers s pn gn = ⟨s, [], some (.notInGroup gn none)⟩)
    ∧ (∀ c g l1 l2, p.client = some c → s.groups gn = some g →
        p.groups = l1 ++ gn :: l2 → gn ∉ l1 → gn ∉ l2 →
        getGroupMembers s pn gn
          = ⟨s, [.receiveGroupMembers pn g.members gn], some (.notInGroup gn none)⟩) := by
  constructor
  · intro hnm
    simp only [getGroupMembers, h, ggmLoop_not_mem s pn gn p.client p.groups hnm]
  · intro c g l1 l2 hc hg hsplit h1 h2
    simp only [getGroupMembers, h, hc, hsplit,
      ggmLoop_skip s pn gn (some c) l1 (gn :: l2) h1]
    simp only [ggmLoop, if_pos (rfl : gn = gn), hg,
      ggmLoop_not_mem s pn gn (some c) l2 h2]
    simp

/-- State where participant a joined group g while unattached (the join
succeeds: the group is empty, and the metadata push is guarded). -/
def sJoinOffline : Service := (joinGroup (initService ["a"]) "a" "g").state

/-- Does the call raise some `NotInGroupError`? -/
def raisedNotInGroup (e : Eff) : Bool :=
  match e.err with
  | some (.notInGroup _ _) => true
  | _ => false

/-- C6 counterexample: on a participant that is a member of the group but
has no attached client, `getGroupMembers` raises `AttributeError` (the
unguarded `self.client.receiveGroupMembers`), not `NotInGroupError`, so it
does not raise `NotInGroupError(groupName)` on *every* call. -/
theorem getGroupMembers_no_client_attribute_error :
    raisedNotInGroup (getGroupMembers sJoinOffline "a" "g") = false
    ∧ (getGroupMembers sJoinOffline "a" "g").err = some .attributeError := by
  decide

/-- State where a attached and then joined g. -/
def sAttachedJoined : Service :=
  (joinGroup ((attached (initService ["a"]) "a" liveClient).1).state "a" "g").state

theorem getGroupMembers_always_raises_witness :
    sAttachedJoined.participants "a"
      = some { newParticipant "a" with status := .online, client := some liveClient, groups := ["g"] }
    ∧ sAttachedJoined.groups "g" = some { newGroup "g" with members := ["a"] }
    ∧ getGroupMembers sAttachedJoined "a" "g"
        = ⟨sAttachedJoined, [.receiveGroupMembers "a" ["a"] "g"], some (.notInGroup "g" none)⟩ := by
  refine ⟨by decide, by decide, ?_⟩
  have hth := (getGroupMembers_always_raises sAttachedJoined "a" "g"
      { newParticipant "a" with status := .online, client := some liveClient, groups := ["g"] }
      (by decide)).2 liveClient { newGroup "g" with members := ["a"] } [] []
      rfl (by decide) rfl (by simp) (by simp)
  simpa using hth

/-! ### C8: joinGroup is idempotent -/

theorem addMember_participants (s : Service) (gn pn : String) :
    (addMember s gn pn).state.participants = s.participants := by
  unfold addMember
  cases s.groups gn with
  | none => rfl
  | some g =>
    by_cases hm : pn ∈ g.members
    · simp [hm]
    · simp only [hm, if_neg]
      cases (notifyMembers s (fun m => .memberJoined m pn gn) g.members).2 with
      | none => rfl
      | some e => rfl

theorem addMember_groups_key (s : Service) (gn pn : String) (g : Group)
    (h : s.groups gn = some g) :
    ∃ g2, (addMember s gn pn).state.groups gn = some g2 := by
  unfold addMember
  rw [h]
  by_cases hm : pn ∈ g.members
  · exact ⟨g, by simp [hm, h]⟩
  · simp only [hm, if_false]
    cases (notifyMembers s (fun m => .memberJoined m pn gn) g.members).2 with
    | none => exact ⟨{ g with members := g.members ++ [pn] }, by simp [setG_self]⟩
    | some e => exact ⟨g, by simp [h]⟩

/-- C8: after a successful `joinGroup`, calling `joinGroup` again with the
same name returns leaving the whole state exactly as it was, raises no
error, and sends no notifications or metadata pushes (the membership check
short-circuits before `addMember`). -/
theorem joinGroup_idempotent (s : Service) (pn gn : String)
    (h : (joinGroup s pn gn).err = none) :
    joinGroup (joinGroup s pn gn).state pn gn = ⟨(joinGroup s pn gn).state, [], none⟩ := by
  cases hp : s.participants pn with
  | none => rw [joinGroup, hp] at h; cases h
  | some p =>
    by_cases hin : gn ∈ p.groups
    · -- first call was the silent no-op; its state is the getGroup state
      have he : joinGroup s pn gn = ⟨(getGroup s gn).1, [], none⟩ := by
        simp only [joinGroup, hp, hin, if_true]
      rw [he]
      have hp2 : (getGroup s gn).1.participants pn = some p := by
        rw [getGroup_participants, hp]
      have hgg : getGroup (getGroup s gn).1 gn = ((getGroup s gn).1, (getGroup s gn).2) :=
        getGroup_of_some _ _ _ (getGroup_lookup_self s gn)
      simp only [joinGroup, hp2, hin, if_true, hgg]
    · -- first call went through addMember and appended the group
      have hred : joinGroup s pn gn
          = (match (addMember (getGroup s gn).1 gn pn).err with
            | some er => ⟨(addMember (getGroup s gn).1 gn pn).state,
                (addMember (getGroup s gn).1 gn pn).events, some er⟩
            | none =>
              match (addMember (getGroup s gn).1 gn pn).state.participants pn with
              | none => ⟨(addMember (getGroup s gn).1 gn pn).state,
                  (addMember (getGroup s gn).1 gn pn).events, some .nameError⟩
              | some p2 => ⟨setP (addMember (getGroup s gn).1 gn pn).state pn
                    { p2 with groups := p2.groups ++ [gn] },
                  (addMember (getGroup s gn).1 gn pn).events, none⟩) := by
        simp only [joinGroup, hp, hin, if_false]
      cases ha : (addMember (getGroup s gn).1 gn pn).err with
      | some er => rw [hred, ha] at h; cases h
      | none =>
        have hp2 : (addMember (getGroup s gn).1 gn pn).state.participants pn = some p := by
          rw [addMember_participants, getGroup_participants, hp]
        have hres : joinGroup s pn gn
            = ⟨setP (addMember (getGroup s gn).1 gn pn).state pn
                  { p with groups := p.groups ++ [gn] },
                (addMember (getGroup s gn).1 gn pn).events, none⟩ := by
          rw [hred, ha, hp2]
        rw [hres]
        -- second call: the participant now lists gn, so the early return fires
        have hlook : (setP (addMember (getGroup s gn).1 gn pn).state pn
              { p with groups := p.groups ++ [gn] }).participants pn
            = some { p with groups := p.groups ++ [gn] } := setP_self _ _ _
        have hmem : gn ∈ ({ p with groups := p.groups ++ [gn] } : Participant).groups := by
          simp
        obtain ⟨g1, hg1⟩ :=
          addMember_groups_key (getGroup s gn).1 gn pn (getGroup s gn).2 (getGroup_lookup_self s gn)
        have hgg : getGroup (setP (addMember (getGroup s gn).1 gn pn).state pn
              { p with groups := p.groups ++ [gn] }) gn
            = (setP (addMember (getGroup s gn).1 gn pn).state pn
                { p with groups := p.groups ++ [gn] }, g1) := by
          apply getGroup_of_some
          rw [setP_groups]; exact hg1
        simp only [joinGroup, hlook, hmem, if_true, hgg]

theorem joinGroup_idempotent_witness :
    (joinGroup (initService ["a"]) "a" "g").err = none
    ∧ joinGroup (joinGroup (initService ["a"]) "a" "g").state "a" "g"
        = ⟨(joinGroup (initService ["a"]) "a" "g").state, [], none⟩ :=
  ⟨by decide, joinGroup_idempotent (initService ["a"]) "a" "g" (by decide)⟩

/-! ### C10: member-joined/left notifications dereference clients unguarded -/

theorem notifyMembers_all_live (s : Service) (mk : String → Event) :
    ∀ l : List String,
      (∀ x ∈ l, ∃ px c, s.participants x = some px ∧ px.client = some c) →
      notifyMembers s mk l = (l.map mk, none) := by
  intro l
  induction l with
  | nil => intro _; rfl
  | cons m rest ih =>
    intro h
    obtain ⟨pm, c, hpm, hc⟩ := h m (by simp)
    simp only [notifyMembers, hpm, hc, ih (fun x hx => h x (by simp [hx])), List.map_cons]

theorem notifyMembers_fails_at (s : Service) (mk : String → Event)
    (m : String) (pm : Participant) (l2 : List String)
    (hm : s.participants m = some pm) (hc : pm.client = none) :
    ∀ l1 : List String,
      (∀ x ∈ l1, ∃ px c, s.participants x = some px ∧ px.client = some c) →
      notifyMembers s mk (l1 ++ m :: l2) = (l1.map mk, some .attributeError) := by
  intro l1
  induction l1 with
  | nil =>
    intro _
    simp [notifyMembers, hm, hc]
  | cons x rest ih =>
    intro h
    obtain ⟨px, c, hpx, hcx⟩ := h x (by simp)
    rw [List.cons_append]
    simp only [notifyMembers, hpx, hcx,
      ih (fun y hy => h y (by simp [hy])), List.map_cons]

theorem notifyMembers_ok_live (s : Service) (mk : String → Event) :
    ∀ l : List String, (notifyMembers s mk l).2 = none →
      ∀ x px, x ∈ l → s.participants x = some px → px.client.isSome := by
  intro l
  induction l with
  | nil =>
    intro _ x px hx
    cases hx
  | cons m rest ih =>
    intro h x px hx hpx
    cases hm : s.participants m with
    | none => simp [notifyMembers, hm] at h
    | some pm =>
      cases hcm : pm.client with
      | none => simp [notifyMembers, hm, hcm] at h
      | some c =>
        have h2 : (notifyMembers s mk rest).2 = none := by
          simp only [notifyMembers, hm, hcm] at h
          exact h
        rcases List.mem_cons.mp hx with hx0 | hx1
        · subst hx0
          rw [hpx] at hm
          cases hm
          simp [hcm]
        · exact ih h2 x px hx1 hpx

/-- C10 as amended: `Group.addMember`, when the joining participant is not
already a member, and `Group.removeMember`, when the participant is a
member, notify each existing (resp. remaining) member through an unguarded
client dereference, so they complete without error only when every notified
member has a live client; when some member has no client the notification
loop fails partway with an `AttributeError`, having already pushed to the
members before it.  (The unamended claim also asserted this precondition
for the idempotent early-return of `addMember`, which in fact succeeds
regardless of member clients — see the counterexample.) -/
theorem member_notification_unguarded (s : Service) (gn pn : String) (g : Group)
    (hg : s.groups gn = some g) :
    (∀ l1 m l2 pm, pn ∉ g.members → g.members = l1 ++ m :: l2 →
        (∀ x ∈ l1, ∃ px c, s.participants x = some px ∧ px.client = some c) →
        s.participants m = some pm → pm.client = none →
        addMember s gn pn
          = ⟨s, l1.map (fun x => .memberJoined x pn gn), some .attributeError⟩)
    ∧ (pn ∉ g.members → (addMember s gn pn).err = none →
        ∀ x px, x ∈ g.members → s.participants x = some px → px.client.isSome)
    ∧ (∀ l1 m l2 pm, pn ∈ g.members → g.members.erase pn = l1 ++ m :: l2 →
        (∀ x ∈ l1, ∃ px c, s.participants x = some px ∧ px.client = some c) →
        s.participants m = some pm → pm.client = none →
        removeMember s gn pn
          = ⟨setG s gn { g with members := g.members.erase pn },
             l1.map (fun x => .memberLeft x pn gn), some .attributeError⟩)
    ∧ ((removeMember s gn pn).err = none → pn ∈ g.members ∧
        ∀ x px, x ∈ g.members.erase pn → s.participants x = some px → px.client.isSome) := by
  have hparts : ∀ g2 : Group, (setG s gn g2).participants = s.participants :=
    fun g2 => setG_participants s gn g2
  refine ⟨?_, ?_, ?_, ?_⟩
  · intro l1 m l2 pm hnm hsplit hlive hm hc
    have hn := notifyMembers_fails_at s (fun x => .memberJoined x pn gn) m pm l2 hm hc l1 hlive
    rw [hsplit] at hnm
    simp only [addMember, hg, hsplit, hnm, if_false, hn]
  · intro hnm herr
    intro x px hx hpx
    cases hn : (notifyMembers s (fun m => .memberJoined m pn gn) g.members).2 with
    | some e =>
      rw [addMember, hg] at herr
      simp only [hnm, if_false, hn] at herr
      cases herr
    | none => exact notifyMembers_ok_live s _ g.members hn x px hx hpx
  · intro l1 m l2 pm hmem hsplit hlive hm hc
    have hlive2 : ∀ x ∈ l1, ∃ px c,
        (setG s gn { g with members := g.members.erase pn }).participants x = some px
        ∧ px.client = some c := by
      rw [hparts]; exact hlive
    have hn := notifyMembers_fails_at (setG s gn { g with members := g.members.erase pn })
      (fun x => .memberLeft x pn gn) m pm l2 (by rw [hparts]; exact hm) hc l1 hlive2
    rw [hsplit] at hn
    simp only [removeMember, hg, hmem, if_true, hsplit, hn]
  · intro herr
    cases hmem : decide (pn ∈ g.members) with
    | false =>
      have hnm : pn ∉ g.members := of_decide_eq_false hmem
      rw [removeMember, hg] at herr
      simp only [hnm, if_false] at herr
      cases herr
    | true =>
      have hmm : pn ∈ g.members := of_decide_eq_true hmem
      refine ⟨hmm, ?_⟩
      have herr2 : (notifyMembers (setG s gn { g with members := g.members.erase pn })
          (fun x => .memberLeft x pn gn) (g.members.erase pn)).2 = none := by
        rw [removeMember, hg] at herr
        simp only [hmm, if_true] at herr
        exact herr
      intro x px hx hpx
      exact notifyMembers_ok_live _ _ _ herr2 x px hx (by rw [hparts]; exact hpx)

/-- C10 counterexample: when the joining participant is already a member,
`addMember` completes without error even though an existing member (here a
itself) has no attached client, so the precondition is not necessary for
`addMember` as a whole. -/
theorem addMember_idempotent_ignores_clients :
    (addMember sJoinOffline "g" "a").err = none
    ∧ (sJoinOffline.participants "a").map (fun p => p.client) = some none
    ∧ (sJoinOffline.groups "g").map (fun g => g.members) = some ["a"] := by
  decide

/-- sJoinOffline with a second participant b not yet in the group. -/
def sJoinOffline2 : Service := (createParticipant sJoinOffline "b").1

theorem member_notification_unguarded_witness :
    sJoinOffline2.groups "g" = some { newGroup "g" with members := ["a"] }
    ∧ addMember sJoinOffline2 "g" "b" = ⟨sJoinOffline2, [], some .attributeError⟩ := by
  refine ⟨by decide, ?_⟩
  have hth := (member_notification_unguarded sJoinOffline2 "g" "b"
      { newGroup "g" with members := ["a"] } (by decide)).1
      [] "a" [] { newParticipant "a" with groups := ["g"] }
      (by decide) rfl (by simp) (by decide) rfl
  simpa using hth

/-! ### C5: the detach cleanup loop -/

theorem removeMember_participants (s : Service) (gn pn : String) :
    (removeMember s gn pn).state.participants = s.participants := by
  unfold removeMember
  cases s.groups gn with
  | none => rfl
  | some g =>
    by_cases hm : pn ∈ g.members
    · simp only [hm, if_true]
      exact setG_participants s gn _
    · simp only [hm, if_false]

theorem leaveGroup_state_mem (s : Service) (pn gn : String) (p : Participant)
    (h : s.participants pn = some p) (hin : gn ∈ p.groups) :
    (leaveGroup s pn gn).state.participants pn
      = some { p with groups := p.groups.erase gn } := by
  simp only [leaveGroup, h, hin, if_true, removeMember_participants]
  exact setP_self s pn _

theorem leaveGroup_state_notmem (s : Service) (pn gn : String) (p : Participant)
    (h : s.participants pn = some p) (hin : gn ∉ p.groups) :
    leaveGroup s pn gn = ⟨s, [], some (.notInGroup gn none)⟩ := by
  simp only [leaveGroup, h, hin, if_false]

theorem detachLoop_tracks (pn : String) :
    ∀ (l : List String) (s : Service) (p : Participant),
      s.participants pn = some p →
      ∃ q, (detachLoop s pn l).state.participants pn = some q
        ∧ q.client = p.client ∧ q.status = p.status := by
  intro l
  induction l with
  | nil => intro s p h; exact ⟨p, h, rfl, rfl⟩
  | cons gn rest ih =>
    intro s p h
    have hstep : ∃ p1, (leaveGroup s pn gn).state.participants pn = some p1
        ∧ p1.client = p.client ∧ p1.status = p.status := by
      by_cases hin : gn ∈ p.groups
      · exact ⟨_, leaveGroup_state_mem s pn gn p h hin, rfl, rfl⟩
      · rw [leaveGroup_state_notmem s pn gn p h hin]
        exact ⟨p, h, rfl, rfl⟩
    obtain ⟨p1, hp1, hc1, hs1⟩ := hstep
    simp only [detachLoop]
    by_cases hcont : loopContinues (leaveGroup s pn gn).err
    · rw [if_pos hcont]
      obtain ⟨q, hq, hqc, hqs⟩ := ih (leaveGroup s pn gn).state p1 hp1
      exact ⟨q, hq, by rw [hqc, hc1], by rw [hqs, hs1]⟩
    · rw [if_neg hcont]
      exact ⟨p1, hp1, hc1, hs1⟩

theorem detachLoop_empties (pn : String) :
    ∀ (l : List String) (s : Service) (p : Participant),
      s.participants pn = some p →
      (∀ x, p.groups.count x = l.count x) →
      (detachLoop s pn l).err = none →
      ∃ q, (detachLoop s pn l).state.participants pn = some q
        ∧ q.groups = [] ∧ q.client = p.client ∧ q.status = p.status := by
  intro l
  induction l with
  | nil =>
    intro s p h hcnt _
    have hnil : p.groups = [] := by
      cases hg : p.groups with
      | nil => rfl
      | cons a t =>
        have h0 := hcnt a
        rw [hg, List.count_cons_self] at h0
        simp at h0
    exact ⟨p, h, hnil, rfl, rfl⟩
  | cons gn rest ih =>
    intro s p h hcnt herr
    have hgin : gn ∈ p.groups := by
      have hx := hcnt gn
      rw [List.count_cons_self] at hx
      exact List.count_pos_iff.mp (by omega)
    have hp1 := leaveGroup_state_mem s pn gn p h hgin
    simp only [detachLoop] at herr ⊢
    by_cases hcont : loopContinues (leaveGroup s pn gn).err
    · rw [if_pos hcont] at herr ⊢
      have hcnt2 : ∀ x,
          ({ p with groups := p.groups.erase gn } : Participant).groups.count x
            = rest.count x := by
        intro x
        show (p.groups.erase gn).count x = rest.count x
        by_cases hx : x = gn
        · subst hx
          have hc1 := hcnt x
          rw [List.count_cons_self] at hc1
          have hc2 := List.count_erase_self x p.groups
          omega
        · have hc1 := hcnt x
          rw [List.count_cons_of_ne hx] at hc1
          have hc2 := List.count_erase_of_ne hx p.groups
          omega
      obtain ⟨q, hq, hqg, hqc, hqs⟩ :=
        ih (leaveGroup s pn gn).state { p with groups := p.groups.erase gn } hp1 hcnt2 herr
      exact ⟨q, hq, hqg, hqc, hqs⟩
    · rw [if_neg hcont] at herr
      have he : (leaveGroup s pn gn).err = none := herr
      rw [he] at hcont
      exact absurd rfl hcont

theorem detachLoop_no_notInGroup (pn : String) :
    ∀ (l : List String) (s : Service) (g : String) (po : Option String),
      (detachLoop s pn l).err ≠ some (.notInGroup g po) := by
  intro l
  induction l with
  | nil => intro s g po hcontra; cases hcontra
  | cons gn rest ih =>
    intro s g po
    simp only [detachLoop]
    by_cases hcont : loopContinues (leaveGroup s pn gn).err
    · rw [if_pos hcont]
      exact ih (leaveGroup s pn gn).state g po
    · rw [if_neg hcont]
      intro hcontra
      have he : (leaveGroup s pn gn).err = some (.notInGroup g po) := hcontra
      rw [he] at hcont
      exact hcont rfl

/-- C5 as amended: whenever `detached` returns normally, the participant is
left with no client, status OFFLINE and an empty group list; and a
`NotInGroupError` raised while leaving a group during the cleanup loop is
always caught, never propagated (`detached` can never surface one).  (The
unamended "regardless of prior state or errors" fails: an `AttributeError`
from notifying a clientless remaining co-member propagates out of the loop
and aborts the OFFLINE transition — see the counterexample.) -/
theorem detached_postcondition (s : Service) (pn : String) (p : Participant)
    (h : s.participants pn = some p) :
    ((detached s pn).err = none →
      ∃ q, (detached s pn).state.participants pn = some q
        ∧ q.client = none ∧ q.status = .offline ∧ q.groups = [])
    ∧ (∀ g po, (detached s pn).err ≠ some (.notInGroup g po)) := by
  have hs1 : (setP s pn { p with client := none }).participants pn
      = some { p with client := none } := setP_self ..
  constructor
  · intro herr
    cases he : (detachLoop (setP s pn { p with client := none }) pn p.groups).err with
    | some er =>
      simp only [detached, h, he] at herr
      cases herr
    | none =>
      obtain ⟨q, hq, hqg, hqc, hqs⟩ := detachLoop_empties pn p.groups
        (setP s pn { p with client := none }) { p with client := none } hs1
        (fun x => rfl) he
      refine ⟨{ q with status := .offline }, ?_, hqc, rfl, hqg⟩
      simp only [detached, h, he, changeStatus, hq]
      exact setP_self ..
  · intro g po
    cases he : (detachLoop (setP s pn { p with client := none }) pn p.groups).err with
    | none =>
      obtain ⟨q, hq, hqc, hqs⟩ := detachLoop_tracks pn p.groups
        (setP s pn { p with client := none }) { p with client := none } hs1
      simp only [detached, h, he, changeStatus, hq]
      intro hcontra
      cases hcontra
    | some er =>
      simp only [detached, h, he]
      intro hcontra
      have hng := detachLoop_no_notInGroup pn p.groups
        (setP s pn { p with client := none }) g po
      rw [he] at hng
      exact hng (by rw [hcontra])

/-- State in which b is attached and in group g, and a is an unattached
member of g (a joined while offline, legal because the metadata push is
guarded and b, the only member to notify, was attached). -/
def sDetachCrash : Service :=
  let s0 := initService ["a", "b"]
  let s1 := ((attached s0 "b" liveClient).1).state
  let s2 := (joinGroup s1 "b" "g").state
  (joinGroup s2 "a" "g").state

/-- C5 counterexample: detaching b clears its client and leaves g, but the
departure notification to the remaining clientless member a raises an
`AttributeError` that is not caught by the `except NotInGroupError`
handler, so `detached` propagates it and b's status is still ONLINE, not
OFFLINE — detach does not always end OFFLINE regardless of prior state and
cleanup errors. -/
theorem detached_cleanup_error_escapes :
    (detached sDetachCrash "b").err = some .attributeError
    ∧ ((detached sDetachCrash "b").state.participants "b").map (fun q => q.status)
        = some .online := by
  decide

theorem detached_postcondition_witness :
    sAttachedJoined.participants "a"
      = some { newParticipant "a" with status := .online, client := some liveClient, groups := ["g"] }
    ∧ (detached sAttachedJoined "a").err ≠ some (.notInGroup "g" none) :=
  ⟨by decide,
    (detached_postcondition sAttachedJoined "a"
      { newParticipant "a" with status := .online, client := some liveClient, groups := ["g"] }
      (by decide)).2 "g" none⟩

/-! ### Fresh worlds built by createParticipant -/

def FreshP (s : Service) : Prop :=
  (∀ pn p, s.participants pn = some p → p = newParticipant pn)
  ∧ ∀ gn, s.groups gn = none

theorem freshP_empty : FreshP emptyService :=
  ⟨(fun _ _ h => nomatch h), fun _ => rfl⟩

theorem freshP_create (s : Service) (n : String) (h : FreshP s) :
    FreshP (createParticipant s n).1 := by
  obtain ⟨h1, h2⟩ := h
  unfold createParticipant
  cases hn : s.participants n with
  | some p => exact ⟨h1, h2⟩
  | none =>
    refine ⟨?_, h2⟩
    intro pn p hp
    by_cases he : pn = n
    · subst he
      rw [setP_self] at hp
      exact (Option.some.inj hp).symm
    · rw [setP_ne _ _ he] at hp
      exact h1 pn p hp

theorem freshP_init (names : List String) : FreshP (initService names) := by
  have haux : ∀ (l : List String) (s : Service), FreshP s →
      FreshP (l.foldl (fun s n => (createParticipant s n).1) s) := by
    intro l
    induction l with
    | nil => intro s h; exact h
    | cons n rest ih => intro s h; exact ih _ (freshP_create s n h)
  exact haux names emptyService freshP_empty

/-! ### C2: contact/reverse-contact reciprocity -/

/-- Contact list of the participant registered under `n` (empty when the
name is not in the directory). -/
def contactsOf (s : Service) (n : String) : List String :=
  match s.participants n with
  | some p => p.contacts
  | none => []

/-- Reverse-contact list of the participant registered under `n`. -/
def reverseOf (s : Service) (n : String) : List String :=
  match s.participants n with
  | some p => p.reverseContacts
  | none => []

/-- The reciprocity invariant, stated with multiplicities: the number of
times `yn` occurs in the contacts of `xn` equals the number of times `xn`
occurs in the reverse contacts of `yn`. -/
def ContactInv (s : Service) : Prop :=
  ∀ xn yn, (contactsOf s xn).count yn = (reverseOf s yn).count xn

inductive ContactOp
  | add (pn cn : String)
  | remove (pn cn : String)

/-- Apply one remote `addContact`/`removeContact` call; the state reflects
the mutations performed before a raise, exactly as `Eff.state` does. -/
def applyContactOp (s : Service) : ContactOp → Service
  | .add pn cn => (addContact s pn cn).state
  | .remove pn cn => (removeContact s pn cn).state

def runContactOps (names : List String) (ops : List ContactOp) : Service :=
  ops.foldl applyContactOp (initService names)

theorem contactsOf_setP (s : Service) (n : String) (q : Participant) (xn : String) :
    contactsOf (setP s n q) xn = if xn = n then q.contacts else contactsOf s xn := by
  unfold contactsOf
  rw [setP_lookup]
  by_cases h : xn = n <;> simp [h]

theorem reverseOf_setP (s : Service) (n : String) (q : Participant) (xn : String) :
    reverseOf (setP s n q) xn = if xn = n then q.reverseContacts else reverseOf s xn := by
  unfold reverseOf
  rw [setP_lookup]
  by_cases h : xn = n <;> simp [h]

theorem contactInv_fresh (s : Service) (h : FreshP s) : ContactInv s := by
  intro xn yn
  have hc : contactsOf s xn = [] := by
    unfold contactsOf
    cases hx : s.participants xn with
    | none => rfl
    | some p => rw [h.1 xn p hx]; rfl
  have hr : reverseOf s yn = [] := by
    unfold reverseOf
    cases hy : s.participants yn with
    | none => rfl
    | some p => rw [h.1 yn p hy]; rfl
  rw [hc, hr]
  rfl

theorem count_append_single (l : List String) (a b : String) :
    (l ++ [b]).count a = l.count a + (if a = b then 1 else 0) := by
  rw [List.count_append]
  by_cases h : a = b <;> simp [h, List.count_singleton', List.count_cons]

theorem contactInv_addContact (s : Service) (pn cn : String) (h : ContactInv s) :
    ContactInv (addContact s pn cn).state := by
  cases hp : s.participants pn with
  | none => simpa only [addContact, hp] using h
  | some p =>
    cases hc : s.participants cn with
    | none => simpa only [addContact, hp, hc] using h
    | some c0 =>
      -- the mutated state, after both appends, in both aliasing cases
      have hkey : ∀ xn yn,
          (contactsOf (addContact s pn cn).state xn
            = contactsOf s xn ++ (if xn = pn then [cn] else []))
          ∧ (reverseOf (addContact s pn cn).state yn
            = reverseOf s yn ++ (if yn = cn then [pn] else [])) := by
        intro xn yn
        by_cases hpc : cn = pn
        · subst hpc
          have hl1 : (setP s cn { p with contacts := p.contacts ++ [cn] }).participants cn
              = some { p with contacts := p.contacts ++ [cn] } := setP_self ..
          simp only [addContact, hp, hc, hl1]
          constructor
          · rw [contactsOf_setP, contactsOf_setP]
            by_cases hx : xn = cn
            · simp [hx, contactsOf, hp]
            · simp [hx]
          · rw [reverseOf_setP, reverseOf_setP]
            by_cases hy : yn = cn
            · simp [hy, reverseOf, hp]
            · simp [hy]
        · have hcp : ¬pn = cn := fun he => hpc he.symm
          have hl1 : (setP s pn { p with contacts := p.contacts ++ [cn] }).participants cn
              = some c0 := by
            rw [setP_ne _ _ hpc]; exact hc
          simp only [addContact, hp, hc, hl1]
          constructor
          · rw [contactsOf_setP, contactsOf_setP]
            by_cases hx1 : xn = cn
            · simp [hx1, hpc, contactsOf, hc]
            · by_cases hx2 : xn = pn
              · simp [hx1, hx2, hcp, contactsOf, hp]
              · simp [hx1, hx2]
          · rw [reverseOf_setP, reverseOf_setP]
            by_cases hy1 : yn = cn
            · simp [hy1, hcp, reverseOf, hc]
            · by_cases hy2 : yn = pn
              · simp [hy1, hy2, hcp, reverseOf, hp]
              · simp [hy1, hy2]
      intro xn yn
      rw [(hkey xn yn).1, (hkey xn yn).2]
      by_cases hx : xn = pn
      · by_cases hy : yn = cn
        · rw [hx, hy]
          simp [List.count_append, List.count_singleton', h pn cn]
        · rw [hx]
          simp [hy, List.count_append, List.count_singleton', h pn yn]
      · by_cases hy : yn = cn
        · rw [hy]
          simp [hx, List.count_append, List.count_singleton', h xn cn]
        · simp [hx, hy, h xn yn]

theorem count_erase_described (l : List String) (a b : String) :
    (l.erase b).count a = l.count a - (if a = b then 1 else 0) := by
  by_cases h : a = b
  · subst h
    simp only [if_pos rfl]
    exact List.count_erase_self a l
  · simp only [if_neg h, Nat.sub_zero]
    exact List.count_erase_of_ne h l

theorem contactInv_removeContact (s : Service) (pn cn : String) (h : ContactInv s) :
    ContactInv (removeContact s pn cn).state := by
  cases hp : s.participants pn with
  | none => simpa only [removeContact, hp] using h
  | some p =>
    by_cases hmem : cn ∈ p.contacts
    · -- the contact is found: both sides lose one occurrence
      have hcnt : 0 < (reverseOf s cn).count pn := by
        have hb := h pn cn
        rw [show contactsOf s pn = p.contacts by simp [contactsOf, hp]] at hb
        rw [← hb]
        exact List.count_pos_iff.mpr hmem
      have hcex : ∃ c1, s.participants cn = some c1 ∧ pn ∈ c1.reverseContacts := by
        cases hcl : s.participants cn with
        | none => rw [reverseOf, hcl] at hcnt; simp at hcnt
        | some c1 =>
          refine ⟨c1, rfl, ?_⟩
          rw [show reverseOf s cn = c1.reverseContacts by simp [reverseOf, hcl]] at hcnt
          exact List.count_pos_iff.mp hcnt
      obtain ⟨c1, hc1, hrev⟩ := hcex
      have hkey : ∀ xn yn,
          (contactsOf (removeContact s pn cn).state xn
            = if xn = pn then (contactsOf s pn).erase cn else contactsOf s xn)
          ∧ (reverseOf (removeContact s pn cn).state yn
            = if yn = cn then (reverseOf s cn).erase pn else reverseOf s yn) := by
        intro xn yn
        by_cases hpc : cn = pn
        · have hcp : c1 = p := by rw [hpc, hp] at hc1; exact (Option.some.inj hc1).symm
          subst hpc
          have hl1 : (setP s cn { p with contacts := p.contacts.erase cn }).participants cn
              = some { p with contacts := p.contacts.erase cn } := setP_self ..
          have hrev2 : cn ∈ ({ p with contacts := p.contacts.erase cn } : Participant).reverseContacts := by
            rw [← hcp]
            exact hrev
          simp only [removeContact, hp, hmem, if_true, hl1, hrev2]
          constructor
          · rw [contactsOf_setP, contactsOf_setP]
            by_cases hx : xn = cn
            · simp [hx, contactsOf, hp]
            · simp [hx]
          · rw [reverseOf_setP, reverseOf_setP]
            by_cases hy : yn = cn
            · simp [hy, reverseOf, hp]
            · simp [hy]
        · have hcp : ¬pn = cn := fun he => hpc he.symm
          have hl1 : (setP s pn { p with contacts := p.contacts.erase cn }).participants cn
              = some c1 := by
            rw [setP_ne _ _ hpc]; exact hc1
          simp only [removeContact, hp, hmem, if_true, hl1, hrev, if_true]
          constructor
          · rw [contactsOf_setP, contactsOf_setP]
            by_cases hx1 : xn = cn
            · simp [hx1, hpc, contactsOf, hc1]
            · by_cases hx2 : xn = pn
              · simp [hx1, hx2, hcp, contactsOf, hp]
              · simp [hx1, hx2]
          · rw [reverseOf_setP, reverseOf_setP]
            by_cases hy1 : yn = cn
            · simp [hy1, hcp, reverseOf, hc1]
            · by_cases hy2 : yn = pn
              · simp [hy1, hy2, hcp, reverseOf, hp]
              · simp [hy1, hy2]
      intro xn yn
      rw [(hkey xn yn).1, (hkey xn yn).2]
      by_cases hx : xn = pn
      · by_cases hy : yn = cn
        · rw [hx, hy]
          simp [count_erase_described, h pn cn]
        · rw [hx]
          simp [hy, count_erase_described, h pn yn]
      · by_cases hy : yn = cn
        · rw [hy]
          simp [hx, count_erase_described, h xn cn]
        · simp [hx, hy, h xn yn]
    · -- not found: NotInCollectionError, nothing mutated
      simpa only [removeContact, hp, hmem, if_false] using h

theorem contactInv_run (names : List String) (ops : List ContactOp) :
    ContactInv (runContactOps names ops) := by
  have haux : ∀ (l : List ContactOp) (s : Service), ContactInv s →
      ContactInv (l.foldl applyContactOp s) := by
    intro l
    induction l with
    | nil => intro s h; exact h
    | cons op rest ih =>
      intro s h
      refine ih _ ?_
      cases op with
      | add pn cn => exact contactInv_addContact s pn cn h
      | remove pn cn => exact contactInv_removeContact s pn cn h
  exact haux ops _ (contactInv_fresh _ (freshP_init names))

/-- C2: after any sequence of `addContact`/`removeContact` calls on a fresh
directory, `cn` is in the contacts of `pn` exactly when `pn` is in the
reverse contacts of `cn`; and `removeContact` of a name that is not among
the contacts raises `NotInCollectionError` and leaves the state (hence both
edge lists) unchanged. -/
theorem contacts_reciprocal (names : List String) (ops : List ContactOp)
    (pn cn : String) (a b : Participant)
    (ha : (runContactOps names ops).participants pn = some a)
    (hb : (runContactOps names ops).participants cn = some b) :
    (cn ∈ a.contacts ↔ pn ∈ b.reverseContacts)
    ∧ ∀ (s : Service) (p : Participant) (xn yn : String),
        s.participants xn = some p → yn ∉ p.contacts →
        removeContact s xn yn
          = ⟨s, [], some (.notInCollection ("No such contact '" ++ yn ++ "'."))⟩ := by
  constructor
  · have hinv := contactInv_run names ops pn cn
    rw [show contactsOf (runContactOps names ops) pn = a.contacts by
        simp [contactsOf, ha],
      show reverseOf (runContactOps names ops) cn = b.reverseContacts by
        simp [reverseOf, hb]] at hinv
    constructor
    · intro hm
      exact List.count_pos_iff.mp (hinv ▸ List.count_pos_iff.mpr hm)
    · intro hm
      exact List.count_pos_iff.mp (hinv ▸ List.count_pos_iff.mpr hm)
  · intro s p xn yn hx hyn
    simp only [removeContact, hx, hyn, if_false]

theorem contacts_reciprocal_witness :
    (runContactOps ["a", "b"] [.add "a" "b"]).participants "a"
      = some { newParticipant "a" with contacts := ["b"] }
    ∧ (runContactOps ["a", "b"] [.add "a" "b"]).participants "b"
      = some { newParticipant "b" with reverseContacts := ["a"] }
    ∧ ("b" ∈ ({ newParticipant "a" with contacts := ["b"]} : Participant).contacts
        ↔ "a" ∈ ({ newParticipant "b" with reverseContacts := ["a"]} : Participant).reverseContacts) :=
  ⟨by decide, by decide,
    (contacts_reciprocal ["a", "b"] [.add "a" "b"] "a" "b"
      { newParticipant "a" with contacts := ["b"] }
      { newParticipant "b" with reverseContacts := ["a"] }
      (by decide) (by decide)).1⟩

/-! ### C3: group/member symmetry -/

/-- Group list of the participant registered under `n` (empty when the name
is not in the directory). -/
def groupsOf (s : Service) (n : String) : List String :=
  match s.participants n with
  | some p => p.groups
  | none => []

/-- Member list of the group registered under `n`. -/
def membersOf (s : Service) (n : String) : List String :=
  match s.groups n with
  | some g => g.members
  | none => []

/-- The membership invariant, with multiplicities. -/
def MemberInv (s : Service) : Prop :=
  ∀ pn gn, (groupsOf s pn).count gn = (membersOf s gn).count pn

inductive GroupOp
  | join (pn gn : String)
  | leave (pn gn : String)
  | detach (pn : String)

/-- Apply one remote `joinGroup`/`leaveGroup`/`detached` call; the state
reflects the mutations performed before a raise. -/
def applyGroupOp (s : Service) : GroupOp → Service
  | .join pn gn => (joinGroup s pn gn).state
  | .leave pn gn => (leaveGroup s pn gn).state
  | .detach pn => (detached s pn).state

def runGroupOps (names : List String) (ops : List GroupOp) : Service :=
  ops.foldl applyGroupOp (initService names)

theorem groupsOf_setP (s : Service) (n : String) (q : Participant) (xn : String) :
    groupsOf (setP s n q) xn = if xn = n then q.groups else groupsOf s xn := by
  unfold groupsOf
  rw [setP_lookup]
  by_cases h : xn = n <;> simp [h]

theorem membersOf_setP (s : Service) (n : String) (q : Participant) (yn : String) :
    membersOf (setP s n q) yn = membersOf s yn := rfl

theorem groupsOf_setG (s : Service) (n : String) (g : Group) (xn : String) :
    groupsOf (setG s n g) xn = groupsOf s xn := rfl

theorem membersOf_setG (s : Service) (n : String) (g : Group) (yn : String) :
    membersOf (setG s n g) yn = if yn = n then g.members else membersOf s yn := by
  unfold membersOf
  rw [setG_lookup]
  by_cases h : yn = n <;> simp [h]

theorem groupsOf_getGroup (s : Service) (gn xn : String) :
    groupsOf (getGroup s gn).1 xn = groupsOf s xn := by
  unfold getGroup
  cases s.groups gn <;> rfl

theorem membersOf_getGroup (s : Service) (gn yn : String) :
    membersOf (getGroup s gn).1 yn = membersOf s yn := by
  unfold getGroup
  cases hg : s.groups gn with
  | some g => rfl
  | none =>
    show membersOf (setG s gn (newGroup gn)) yn = membersOf s yn
    rw [membersOf_setG]
    by_cases h : yn = gn
    · subst h
      rw [if_pos rfl]
      unfold membersOf
      rw [hg]
      rfl
    · rw [if_neg h]

theorem memberInv_fresh (s : Service) (h : FreshP s) : MemberInv s := by
  intro pn gn
  have hgl : groupsOf s pn = [] := by
    unfold groupsOf
    cases hx : s.participants pn with
    | none => rfl
    | some p => rw [h.1 pn p hx]; rfl
  have hml : membersOf s gn = [] := by
    unfold membersOf
    rw [h.2 gn]
  rw [hgl, hml]
  rfl

/-- `addMember` of a non-member whose notification loop raised: nothing
was mutated. -/
theorem addMember_notify_err (s : Service) (gn pn : String) (g : Group) (e2 : Err)
    (hg : s.groups gn = some g) (hnm : pn ∉ g.members)
    (hn : (notifyMembers s (fun m => .memberJoined m pn gn) g.members).2 = some e2) :
    (addMember s gn pn).state = s ∧ (addMember s gn pn).err = some e2 := by
  constructor <;> simp only [addMember, hg, hnm, if_false, hn]

/-- `addMember` of a non-member whose notification loop succeeded: exactly
the append to the member list. -/
theorem addMember_notify_ok (s : Service) (gn pn : String) (g : Group)
    (hg : s.groups gn = some g) (hnm : pn ∉ g.members)
    (hn : (notifyMembers s (fun m => .memberJoined m pn gn) g.members).2 = none) :
    (addMember s gn pn).state = setG s gn { g with members := g.members ++ [pn] }
    ∧ (addMember s gn pn).err = none := by
  constructor <;> simp only [addMember, hg, hnm, if_false, hn]

/-- `removeMember` of a member: exactly the erase on the member list. -/
theorem removeMember_state (s : Service) (gn pn : String) (g : Group)
    (hg : s.groups gn = some g) (hm : pn ∈ g.members) :
    (removeMember s gn pn).state = setG s gn { g with members := g.members.erase pn } := by
  simp only [removeMember, hg, hm, if_true]

theorem memberInv_joinGroup (s : Service) (pn gn : String) (h : MemberInv s) :
    MemberInv (joinGroup s pn gn).state := by
  cases hp : s.participants pn with
  | none => simpa only [joinGroup, hp] using h
  | some p =>
    have h1 : MemberInv (getGroup s gn).1 := by
      intro xn yn
      rw [groupsOf_getGroup, membersOf_getGroup]
      exact h xn yn
    by_cases hin : gn ∈ p.groups
    · simpa only [joinGroup, hp, hin, if_true] using h1
    · have hp1 : (getGroup s gn).1.participants pn = some p := by
        rw [getGroup_participants]; exact hp
      have hg1 : (getGroup s gn).1.groups gn = some (getGroup s gn).2 :=
        getGroup_lookup_self s gn
      have hgrp : groupsOf (getGroup s gn).1 pn = p.groups := by
        simp [groupsOf, hp1]
      have hmem : membersOf (getGroup s gn).1 gn = (getGroup s gn).2.members := by
        simp [membersOf, hg1]
      have hnm : pn ∉ (getGroup s gn).2.members := by
        intro hmm
        have hc := h1 pn gn
        rw [hgrp, hmem] at hc
        have hpos : 0 < p.groups.count gn := by
          rw [hc]; exact List.count_pos_iff.mpr hmm
        exact hin (List.count_pos_iff.mp hpos)
      cases hn : (notifyMembers (getGroup s gn).1
          (fun m => .memberJoined m pn gn) (getGroup s gn).2.members).2 with
      | some e2 =>
        obtain ⟨hst2, herr2⟩ := addMember_notify_err _ _ _ _ e2 hg1 hnm hn
        have hst : (joinGroup s pn gn).state = (addMember (getGroup s gn).1 gn pn).state := by
          simp only [joinGroup, hp, hin, if_false, herr2]
        rw [hst, hst2]
        exact h1
      | none =>
        obtain ⟨hst2, herr2⟩ := addMember_notify_ok _ _ _ _ hg1 hnm hn
        have hp2 : (addMember (getGroup s gn).1 gn pn).state.participants pn = some p := by
          rw [addMember_participants]; exact hp1
        have hst : (joinGroup s pn gn).state
            = setP (addMember (getGroup s gn).1 gn pn).state pn
                { p with groups := p.groups ++ [gn] } := by
          simp only [joinGroup, hp, hin, if_false, herr2, hp2]
        have hadd := hst2
        intro xn yn
        rw [hst]
        rw [groupsOf_setP, show membersOf (setP (addMember (getGroup s gn).1 gn pn).state pn
              { p with groups := p.groups ++ [gn] }) yn
            = membersOf (addMember (getGroup s gn).1 gn pn).state yn from rfl]
        rw [hadd, groupsOf_setG, membersOf_setG]
        have hbase := h1 xn yn
        by_cases hx : xn = pn
        · by_cases hy : yn = gn
          · rw [hx, hy]
            have hb := h1 pn gn
            rw [hgrp, hmem] at hb
            simp [List.count_append, List.count_singleton', hb, hgrp]
          · rw [hx]
            have hb := h1 pn yn
            rw [hgrp] at hb
            simp [hy, List.count_append, List.count_singleton', hb, hgrp]
        · by_cases hy : yn = gn
          · rw [hy]
            have hb := h1 xn gn
            rw [hmem] at hb
            simp [hx, List.count_append, List.count_singleton', hb]
          · simp [hx, hy, hbase]

theorem memberInv_leaveGroup (s : Service) (pn gn : String) (h : MemberInv s) :
    MemberInv (leaveGroup s pn gn).state := by
  cases hp : s.participants pn with
  | none => simpa only [leaveGroup, hp] using h
  | some p =>
    by_cases hin : gn ∈ p.groups
    · have hgrp : groupsOf s pn = p.groups := by simp [groupsOf, hp]
      have hpos : 0 < (membersOf s gn).count pn := by
        have hc := h pn gn
        rw [hgrp] at hc
        rw [← hc]
        exact List.count_pos_iff.mpr hin
      have hgex : ∃ g, s.groups gn = some g ∧ pn ∈ g.members := by
        cases hg : s.groups gn with
        | none => rw [membersOf, hg] at hpos; simp at hpos
        | some g =>
          refine ⟨g, rfl, ?_⟩
          rw [show membersOf s gn = g.members by simp [membersOf, hg]] at hpos
          exact List.count_pos_iff.mp hpos
      obtain ⟨g, hg, hm⟩ := hgex
      have hmem : membersOf s gn = g.members := by simp [membersOf, hg]
      have hg1 : (setP s pn { p with groups := p.groups.erase gn }).groups gn = some g := hg
      have hst : (leaveGroup s pn gn).state
          = setG (setP s pn { p with groups := p.groups.erase gn }) gn
              { g with members := g.members.erase pn } := by
        simp only [leaveGroup, hp, hin, if_true]
        exact removeMember_state _ gn pn g hg1 hm
      intro xn yn
      rw [hst, membersOf_setG, show groupsOf (setG (setP s pn
            { p with groups := p.groups.erase gn }) gn
            { g with members := g.members.erase pn }) xn
          = groupsOf (setP s pn { p with groups := p.groups.erase gn }) xn from rfl,
        groupsOf_setP, membersOf_setP]
      have hbase := h xn yn
      by_cases hx : xn = pn
      · by_cases hy : yn = gn
        · rw [hx, hy]
          have hb := h pn gn
          rw [hgrp, hmem] at hb
          simp [count_erase_described, hb]
        · rw [hx]
          have hb := h pn yn
          rw [hgrp] at hb
          simp [hy, count_erase_described, hb]
      · by_cases hy : yn = gn
        · rw [hy]
          have hb := h xn gn
          rw [hmem] at hb
          simp [hx, count_erase_described, hb]
        · simp [hx, hy, hbase]
    · simpa only [leaveGroup, hp, hin, if_false] using h

theorem memberInv_setP_same_groups (s : Service) (pn : String) (p q : Participant)
    (hp : s.participants pn = some p) (hq : q.groups = p.groups) (h : MemberInv s) :
    MemberInv (setP s pn q) := by
  intro xn yn
  rw [groupsOf_setP, membersOf_setP]
  by_cases hx : xn = pn
  · rw [hx, if_pos rfl, hq, show p.groups = groupsOf s pn by simp [groupsOf, hp]]
    exact h pn yn
  · rw [if_neg hx]
    exact h xn yn

theorem memberInv_changeStatus (s : Service) (pn : String) (st : Status)
    (h : MemberInv s) : MemberInv (changeStatus s pn st).state := by
  cases hp : s.participants pn with
  | none => simpa only [changeStatus, hp] using h
  | some p =>
    have hk : (changeStatus s pn st).state = setP s pn { p with status := st } := by
      simp only [changeStatus, hp]
    rw [hk]
    exact memberInv_setP_same_groups s pn p _ hp rfl h

theorem memberInv_detachLoop (pn : String) :
    ∀ (l : List String) (s : Service), MemberInv s →
      MemberInv (detachLoop s pn l).state := by
  intro l
  induction l with
  | nil => intro s h; exact h
  | cons gn rest ih =>
    intro s h
    simp only [detachLoop]
    by_cases hcont : loopContinues (leaveGroup s pn gn).err
    · rw [if_pos hcont]
      exact ih (leaveGroup s pn gn).state (memberInv_leaveGroup s pn gn h)
    · rw [if_neg hcont]
      exact memberInv_leaveGroup s pn gn h

theorem memberInv_detached (s : Service) (pn : String) (h : MemberInv s) :
    MemberInv (detached s pn).state := by
  cases hp : s.participants pn with
  | none => simpa only [detached, hp] using h
  | some p =>
    have h1 : MemberInv (setP s pn { p with client := none }) :=
      memberInv_setP_same_groups s pn p _ hp rfl h
    have h2 := memberInv_detachLoop pn p.groups _ h1
    cases he : (detachLoop (setP s pn { p with client := none }) pn p.groups).err with
    | none =>
      have hst : (detached s pn).state
          = (changeStatus (detachLoop (setP s pn { p with client := none }) pn p.groups).state
              pn .offline).state := by
        simp only [detached, hp, he]
      rw [hst]
      exact memberInv_changeStatus _ pn .offline h2
    | some er =>
      have hst : (detached s pn).state
          = (detachLoop (setP s pn { p with client := none }) pn p.groups).state := by
        simp only [detached, hp, he]
      rw [hst]
      exact h2

theorem memberInv_run (names : List String) (ops : List GroupOp) :
    MemberInv (runGroupOps names ops) := by
  have haux : ∀ (l : List GroupOp) (s : Service), MemberInv s →
      MemberInv (l.foldl applyGroupOp s) := by
    intro l
    induction l with
    | nil => intro s h; exact h
    | cons op rest ih =>
      intro s h
      refine ih _ ?_
      cases op with
      | join pn gn => exact memberInv_joinGroup s pn gn h
      | leave pn gn => exact memberInv_leaveGroup s pn gn h
      | detach pn => exact memberInv_detached s pn h
  exact haux ops _ (memberInv_fresh _ (freshP_init names))

/-- C3: after any sequence of `joinGroup`/`leaveGroup`/`detached` calls on
a fresh directory, a group name is in a participant group list exactly when
the participant name is in that group member list. -/
theorem groups_members_symmetric (names : List String) (ops : List GroupOp)
    (pn gn : String) (p : Participant) (g : Group)
    (hp : (runGroupOps names ops).participants pn = some p)
    (hg : (runGroupOps names ops).groups gn = some g) :
    gn ∈ p.groups ↔ pn ∈ g.members := by
  have hinv := memberInv_run names ops pn gn
  rw [show groupsOf (runGroupOps names ops) pn = p.groups by simp [groupsOf, hp],
    show membersOf (runGroupOps names ops) gn = g.members by simp [membersOf, hg]] at hinv
  constructor
  · intro hm
    exact List.count_pos_iff.mp (hinv ▸ List.count_pos_iff.mpr hm)
  · intro hm
    exact List.count_pos_iff.mp (hinv ▸ List.count_pos_iff.mpr hm)

theorem groups_members_symmetric_witness :
    (runGroupOps ["a"] [.join "a" "g"]).participants "a"
      = some { newParticipant "a" with groups := ["g"] }
    ∧ (runGroupOps ["a"] [.join "a" "g"]).groups "g"
      = some { newGroup "g" with members := ["a"] }
    ∧ ("g" ∈ ({ newParticipant "a" with groups := ["g"] } : Participant).groups
        ↔ "a" ∈ ({ newGroup "g" with members := ["a"] } : Group).members) :=
  ⟨by decide, by decide,
    groups_members_symmetric ["a"] [.join "a" "g"] "a" "g"
      { newParticipant "a" with groups := ["g"] }
      { newGroup "g" with members := ["a"] } (by decide) (by decide)⟩

end WordsService
